import Mathlib

/-!
Verification of the hex-codepoint → UTF-8 encoder in `src/main.cc`.

The embedding below mirrors the four functions of the source:
* `hexCharToByte`   — value of one hex digit, or `-1` (source lines 9-14);
* `utf8CodePointType` — the plane classifier on `int32_t` (lines 31-44);
* `hexCharToValue` / `hexCharToValueInt32` — the bounded big-endian hex
  parser `hexCharToValue<T>` at its two instantiations `T = uint32_t`
  (the template default) and `T = int32_t` (as called by the encoder,
  line 75).  The C++ accumulator is a signed `int`; we carry its 32-bit
  two's-complement bit pattern as a `Nat < 2^32` and convert at the end;
* `hexCodepointToUtf8String` — the encoder (lines 73-178).

Strings are `List Char`; the returned `std::string` is a `List Nat` of
byte values (< 256).  The C++ function returns the empty string on every
failure, which we render as `some []`; `none` marks the executions in
which the source indexes the `string_view` past its end (undefined
behaviour in C++), so that reaching that branch is observable here.

C++ byte-level details are made explicit:
* `cppByte` is the `char(...)` conversion of an `int` (truncation to the
  low 8 bits of the two's-complement pattern);
* `promoteChar` is the integer promotion of a signed `char` holding byte
  pattern `b` — the resulting `int`'s 32-bit pattern, so the sign
  extension of bytes ≥ 0x80 (all the UTF-8 prefix constants) is modelled
  exactly.  In particular the operator-precedence anomaly in the
  Extended byte-1 expression (line 167: the `char(...)` cast closes
  before the final `| ((c1 & 0b1100) >> 2)`) is reproduced literally in
  `extByte1`.
-/

/-- hexCharToByte (source lines 9-14): the value of a hex digit character,
or `-1` for any other character.  48, 57, 97, 102, 65, 70 are the code
units of '0', '9', 'a', 'f', 'A', 'F'; 87 = 'a' - 10, 55 = 'A' - 10. -/
def hexCharToByte (c : Char) : Int :=
  if 48 ≤ c.toNat ∧ c.toNat ≤ 57 then (c.toNat : Int) - 48
  else if 97 ≤ c.toNat ∧ c.toNat ≤ 102 then (c.toNat : Int) - 87
  else if 65 ≤ c.toNat ∧ c.toNat ≤ 70 then (c.toNat : Int) - 55
  else -1

/-- Utf8CPType (source lines 23-29): the UTF-8 length plane of a code point. -/
inductive Utf8CPType where
  | Ascii
  | Latin
  | MultiLingual
  | Extended
  | Invalid
deriving DecidableEq

/-- utf8CodePointType (source lines 31-44), on the mathematical integers
(the source takes an `int32_t`; the definition is the same if-chain). -/
def utf8CodePointType (codepoint : Int) : Utf8CPType :=
  if 0x00000 ≤ codepoint ∧ codepoint ≤ 0x0007F then .Ascii
  else if 0x00080 ≤ codepoint ∧ codepoint ≤ 0x007FF then .Latin
  else if (0x00800 ≤ codepoint ∧ codepoint < 0x0D800) ∨
          (0x0DFFF < codepoint ∧ codepoint ≤ 0x0FFFF) then .MultiLingual
  else if 0x010000 ≤ codepoint ∧ codepoint ≤ 0x10FFFF then .Extended
  else .Invalid

/-- The loop of hexCharToValue (source lines 59-67).  `cp` is the 32-bit
two's-complement pattern of the C++ `int` accumulator; `cp = (cp << shift) | b`
wraps modulo 2^32 (the OR with `b < 16` cannot overflow after the shift). -/
def hexLoop : List Char → Nat → Nat → Option Nat
  | [], cp, _ => some cp
  | c :: cs, cp, shift =>
    let b := hexCharToByte c
    if b < 0 then none
    else hexLoop cs (((cp <<< shift) % 2 ^ 32) ||| b.toNat) 4

/-- The value of a signed 32-bit integer whose bit pattern is `p < 2^32`. -/
def toInt32 (p : Nat) : Int :=
  if p < 2 ^ 31 then (p : Int) else (p : Int) - 2 ^ 32

/-- hexCharToValue (source lines 51-70) at the template default
`T = uint32_t`: max length `l = sizeof(T)*2 = 8`; the final `return cp`
converts the `int` accumulator to `uint32_t`, i.e. yields the pattern. -/
def hexCharToValue (hexChar : List Char) : Option Nat :=
  if hexChar.length = 0 ∨ hexChar.length % 2 ≠ 0 ∨ 8 < hexChar.length then none
  else hexLoop hexChar 0 0

/-- hexCharToValue at `T = int32_t`, the instantiation used by the encoder
(source line 75): same guard and loop, result read as a signed int32. -/
def hexCharToValueInt32 (hexChar : List Char) : Option Int :=
  (hexCharToValue hexChar).map toInt32

/-- The C++ conversion `char(x)` of an `int` with 32-bit pattern `x`,
as the byte pattern of the resulting char. -/
def cppByte (x : Nat) : Nat := x % 256

/-- Integer promotion of a signed `char` with byte pattern `b < 256`:
the 32-bit pattern of the resulting `int` (sign extension for `b ≥ 0x80`). -/
def promoteChar (b : Nat) : Nat := if b < 128 then b else 0xFFFFFF00 + b

/-- The C++ conversion `char(x)` of a (possibly negative) Euclidean integer:
the byte pattern of the resulting char. -/
def cppByteOfInt (x : Int) : Nat := (x % 256).toNat

/-- Latin byte 1 (source line 131):
`char(Utf8LatinPrefix | (c1 & 0b111) << 2 | (c2 & 0b1100) >> 2)`. -/
def latinByte1 (c1 c2 : Nat) : Nat :=
  cppByte ((promoteChar 0xC0 ||| ((c1 &&& 0b00000111) <<< 2)) ||| ((c2 &&& 0b00001100) >>> 2))

/-- Latin byte 2 (source line 132):
`char(Utf8ContPrefix | (c2 & 0b11) << 4 | (c3 & 0b1111))`. -/
def latinByte2 (c2 c3 : Nat) : Nat :=
  cppByte ((promoteChar 0x80 ||| ((c2 &&& 0b00000011) <<< 4)) ||| (c3 &&& 0b00001111))

/-- MultiLingual byte 1 (source line 147): `char(Utf8MultiLingPrefix | (c0 & 0b1111))`. -/
def mlByte1 (c0 : Nat) : Nat :=
  cppByte (promoteChar 0xE0 ||| (c0 &&& 0b00001111))

/-- MultiLingual byte 2 (source line 148):
`char(Utf8ContPrefix | ((c1 & 0b1111) << 2) | ((c2 & 0b1100) >> 2))`. -/
def mlByte2 (c1 c2 : Nat) : Nat :=
  cppByte ((promoteChar 0x80 ||| ((c1 &&& 0b00001111) <<< 2)) ||| ((c2 &&& 0b00001100) >>> 2))

/-- MultiLingual byte 3 (source line 149):
`char(Utf8ContPrefix | ((c2 & 0b11) << 4) | (c3 & 0b1111))`. -/
def mlByte3 (c2 c3 : Nat) : Nat :=
  cppByte ((promoteChar 0x80 ||| ((c2 &&& 0b00000011) <<< 4)) ||| (c3 &&& 0b00001111))

/-- Extended byte 1 (source line 167), with the operator-precedence anomaly
kept verbatim: `char(Utf8ExtendedPrefix | ((c0 & 0b1) << 2)) | ((c1 & 0b1100) >> 2)`
— the cast to `char` closes after the first OR, the resulting char is
promoted (sign-extended) again, OR-ed with the third term, and the final
implicit conversion in `push_back` truncates back to a byte. -/
def extByte1 (c0 c1 : Nat) : Nat :=
  cppByte (promoteChar (cppByte (promoteChar 0xF0 ||| ((c0 &&& 0b00000001) <<< 2))) |||
           ((c1 &&& 0b00001100) >>> 2))

/-- Extended byte 2 (source line 168):
`char(Utf8ContPrefix | ((c1 & 0b11) << 4) | (c2 & 0b1111))`. -/
def extByte2 (c1 c2 : Nat) : Nat :=
  cppByte ((promoteChar 0x80 ||| ((c1 &&& 0b00000011) <<< 4)) ||| (c2 &&& 0b00001111))

/-- Extended byte 3 (source line 169):
`char(Utf8ContPrefix | ((c3 & 0b1111) << 2) | ((c4 & 0b1100) >> 2))`. -/
def extByte3 (c3 c4 : Nat) : Nat :=
  cppByte ((promoteChar 0x80 ||| ((c3 &&& 0b00001111) <<< 2)) ||| ((c4 &&& 0b00001100) >>> 2))

/-- Extended byte 4 (source line 170):
`char(Utf8ContPrefix | ((c4 & 0b11) << 4) | (c5 & 0b1111))`. -/
def extByte4 (c4 c5 : Nat) : Nat :=
  cppByte ((promoteChar 0x80 ||| ((c4 &&& 0b00000011) <<< 4)) ||| (c5 &&& 0b00001111))

/-- The digit value of a character read back inside the encoder branches
(`char cN = hexCharToByte(hexChar[N])`).  Every character of the input has
been validated by the parser before any branch runs, so `hexCharToByte`
is in `[0, 15]` here and `Int.toNat` is exact. -/
def hexDigitVal (c : Char) : Nat := (hexCharToByte c).toNat

/-- The Latin branch of the encoder (source lines 120-134); reads the hex
digits at positions 1, 2, 3.  `none` marks an out-of-range access. -/
def encodeLatin (hexChar : List Char) : Option (List Nat) :=
  match hexChar.get? 1, hexChar.get? 2, hexChar.get? 3 with
  | some h1, some h2, some h3 =>
    some [latinByte1 (hexDigitVal h1) (hexDigitVal h2),
          latinByte2 (hexDigitVal h2) (hexDigitVal h3)]
  | _, _, _ => none

/-- The MultiLingual branch (source lines 135-151); reads positions 0-3. -/
def encodeMultiLingual (hexChar : List Char) : Option (List Nat) :=
  match hexChar.get? 0, hexChar.get? 1, hexChar.get? 2, hexChar.get? 3 with
  | some h0, some h1, some h2, some h3 =>
    some [mlByte1 (hexDigitVal h0),
          mlByte2 (hexDigitVal h1) (hexDigitVal h2),
          mlByte3 (hexDigitVal h2) (hexDigitVal h3)]
  | _, _, _, _ => none

/-- The Extended branch (source lines 152-172); reads positions 0-5. -/
def encodeExtended (hexChar : List Char) : Option (List Nat) :=
  match hexChar.get? 0, hexChar.get? 1, hexChar.get? 2,
        hexChar.get? 3, hexChar.get? 4, hexChar.get? 5 with
  | some h0, some h1, some h2, some h3, some h4, some h5 =>
    some [extByte1 (hexDigitVal h0) (hexDigitVal h1),
          extByte2 (hexDigitVal h1) (hexDigitVal h2),
          extByte3 (hexDigitVal h3) (hexDigitVal h4),
          extByte4 (hexDigitVal h4) (hexDigitVal h5)]
  | _, _, _, _, _, _ => none

/-- hexCodepointToUtf8String (source lines 73-178).  `some []` is the empty
`std::string` the source returns on parse failure or an Invalid code point;
the Ascii branch pushes `(char)*codepoint`. -/
def hexCodepointToUtf8String (hexChar : List Char) : Option (List Nat) :=
  match hexCharToValueInt32 hexChar with
  | none => some []
  | some codepoint =>
    match utf8CodePointType codepoint with
    | .Ascii => some [cppByteOfInt codepoint]
    | .Latin => encodeLatin hexChar
    | .MultiLingual => encodeMultiLingual hexChar
    | .Extended => encodeExtended hexChar
    | .Invalid => some []

/-! Specification-side apparatus: an independent, standards-compliant
(RFC 3629) UTF-8 decoder, the canonical hex representation of a code
point, and the list of digit values of a hex string.  These follow the
spec, not the source; the claims compare the source against them. -/

/-- Modelled from the spec: the independent reference UTF-8 decoder the
testable properties appeal to (§8: "an independent reference decoder",
"any standards-compliant UTF-8 decoder").  It accepts exactly the
well-formed byte sequences of RFC 3629 (no overlong forms, no surrogates,
nothing above U+10FFFF) and returns the decoded code point. -/
def utf8Decode (bs : List Nat) : Option Nat :=
  match bs with
  | [b1] => if b1 ≤ 0x7F then some b1 else none
  | [b1, b2] =>
    if 0xC2 ≤ b1 ∧ b1 ≤ 0xDF ∧ 0x80 ≤ b2 ∧ b2 ≤ 0xBF then
      some ((b1 - 0xC0) * 64 + (b2 - 0x80))
    else none
  | [b1, b2, b3] =>
    if ((b1 = 0xE0 ∧ 0xA0 ≤ b2 ∧ b2 ≤ 0xBF) ∨
        (0xE1 ≤ b1 ∧ b1 ≤ 0xEC ∧ 0x80 ≤ b2 ∧ b2 ≤ 0xBF) ∨
        (b1 = 0xED ∧ 0x80 ≤ b2 ∧ b2 ≤ 0x9F) ∨
        (0xEE ≤ b1 ∧ b1 ≤ 0xEF ∧ 0x80 ≤ b2 ∧ b2 ≤ 0xBF)) ∧
       (0x80 ≤ b3 ∧ b3 ≤ 0xBF) then
      some ((b1 - 0xE0) * 4096 + (b2 - 0x80) * 64 + (b3 - 0x80))
    else none
  | [b1, b2, b3, b4] =>
    if ((b1 = 0xF0 ∧ 0x90 ≤ b2 ∧ b2 ≤ 0xBF) ∨
        (0xF1 ≤ b1 ∧ b1 ≤ 0xF3 ∧ 0x80 ≤ b2 ∧ b2 ≤ 0xBF) ∨
        (b1 = 0xF4 ∧ 0x80 ≤ b2 ∧ b2 ≤ 0x8F)) ∧
       (0x80 ≤ b3 ∧ b3 ≤ 0xBF) ∧ (0x80 ≤ b4 ∧ b4 ≤ 0xBF) then
      some ((b1 - 0xF0) * 262144 + (b2 - 0x80) * 4096 + (b3 - 0x80) * 64 + (b4 - 0x80))
    else none
  | _ => none

/-- The uppercase hex character of a digit value `v < 16`. -/
def nibbleChar (v : Nat) : Char :=
  if v < 10 then Char.ofNat (48 + v) else Char.ofNat (55 + v)

/-- Modelled from the spec: `hex(cp)`, the hex-string representation of a
code point assumed by the design (§4.4): 4 digits for code points the
16-bit paths handle (`cp ≤ 0xFFFF`), 6 digits for the Extended plane. -/
def hexOfCp (cp : Nat) : List Char :=
  if cp ≤ 0xFFFF then
    [nibbleChar (cp / 4096 % 16), nibbleChar (cp / 256 % 16),
     nibbleChar (cp / 16 % 16), nibbleChar (cp % 16)]
  else
    [nibbleChar (cp / 1048576 % 16), nibbleChar (cp / 65536 % 16),
     nibbleChar (cp / 4096 % 16), nibbleChar (cp / 256 % 16),
     nibbleChar (cp / 16 % 16), nibbleChar (cp % 16)]

/-- The digit values of a hex string, `none` if some character is not a
hex digit.  Statement-side companion of the parser. -/
def hexDigits? : List Char → Option (List Nat)
  | [] => some []
  | c :: cs =>
    if hexCharToByte c < 0 then none
    else (hexDigits? cs).map (fun vs => (hexCharToByte c).toNat :: vs)

/-- The big-endian value of a list of hex-digit values. -/
def hexValBE (vs : List Nat) : Nat := vs.foldl (fun a v => 16 * a + v) 0

/-! Helper lemmas. -/

/-- hexCharToByte is at most 15 on every character. -/
lemma hexCharToByte_le15 (c : Char) : hexCharToByte c ≤ 15 := by
  unfold hexCharToByte
  split_ifs <;> omega

/-- hexCharToByte is at least -1 on every character. -/
lemma neg_one_le_hexCharToByte (c : Char) : -1 ≤ hexCharToByte c := by
  unfold hexCharToByte
  split_ifs <;> omega

/-- ORing a value below 16 into a 4-bit left shift is plain addition. -/
lemma shiftLeft4_lor_small (x v : Nat) (hv : v < 16) :
    (x <<< 4) ||| v = 16 * x + v := by
  apply Nat.eq_of_testBit_eq
  intro i
  have h16 : (16 : Nat) * x + v = 2 ^ 4 * x + v := by norm_num
  rw [Nat.testBit_or, Nat.testBit_shiftLeft, h16,
    Nat.testBit_mul_pow_two_add x (by omega : v < 2 ^ 4) i]
  by_cases hi : i < 4
  · simp [hi, show ¬ i ≥ 4 by omega]
  · have h2i : (16 : Nat) ≤ 2 ^ i := by
      calc (16 : Nat) = 2 ^ 4 := by norm_num
      _ ≤ 2 ^ i := Nat.pow_le_pow_right (by omega) (by omega)
    have hvi : v.testBit i = false := Nat.testBit_lt_two_pow (by omega)
    simp [hi, show i ≥ 4 by omega, hvi]

/-- hexDigits? preserves length. -/
lemma hexDigits?_length : ∀ {cs : List Char} {vs : List Nat},
    hexDigits? cs = some vs → vs.length = cs.length := by
  intro cs
  induction cs with
  | nil =>
    intro vs h
    simp only [hexDigits?, Option.some.injEq] at h
    subst h
    rfl
  | cons c cs ih =>
    intro vs h
    simp only [hexDigits?] at h
    split at h
    · exact absurd h (by simp)
    · rcases hrec : hexDigits? cs with _ | vs'
      · rw [hrec] at h; exact absurd h (by simp)
      · rw [hrec] at h
        simp only [Option.map_some', Option.some.injEq] at h
        subst h
        simp [ih hrec]

/-- Every digit value produced by hexDigits? is below 16. -/
lemma hexDigits?_lt16 : ∀ {cs : List Char} {vs : List Nat},
    hexDigits? cs = some vs → ∀ v ∈ vs, v < 16 := by
  intro cs
  induction cs with
  | nil =>
    intro vs h
    simp only [hexDigits?, Option.some.injEq] at h
    subst h
    simp
  | cons c cs ih =>
    intro vs h v hv
    simp only [hexDigits?] at h
    split at h
    · exact absurd h (by simp)
    · rcases hrec : hexDigits? cs with _ | vs'
      · rw [hrec] at h; exact absurd h (by simp)
      · rw [hrec] at h
        simp only [Option.map_some', Option.some.injEq] at h
        subst h
        rcases List.mem_cons.mp hv with h' | h'
        · subst h'
          have := hexCharToByte_le15 c
          omega
        · exact ih hrec v h'

/-- hexDigits? fails exactly on a string holding a non-hex character. -/
lemma hexDigits?_eq_none_iff : ∀ {cs : List Char},
    hexDigits? cs = none ↔ ∃ c ∈ cs, hexCharToByte c < 0 := by
  intro cs
  induction cs with
  | nil => simp [hexDigits?]
  | cons c cs ih =>
    simp only [hexDigits?]
    by_cases hc : hexCharToByte c < 0
    · rw [if_pos hc]
      constructor
      · intro _
        exact ⟨c, List.mem_cons_self c cs, hc⟩
      · intro _
        rfl
    · rw [if_neg hc]
      rcases hrec : hexDigits? cs with _ | vs'
      · simp only [Option.map_none']
        constructor
        · intro _
          obtain ⟨x, hx, hxneg⟩ := ih.mp hrec
          exact ⟨x, List.mem_cons_of_mem _ hx, hxneg⟩
        · intro _
          trivial
      · simp only [Option.map_some']
        constructor
        · intro hcontra
          exact absurd hcontra (by simp)
        · rintro ⟨x, hx, hxneg⟩
          rcases List.mem_cons.mp hx with rfl | hx'
          · exact absurd hxneg hc
          · have hnone : hexDigits? cs = none := ih.mpr ⟨x, hx', hxneg⟩
            rw [hnone] at hrec
            exact absurd hrec (by simp)

/-- The loop fails exactly on a string holding a non-hex character. -/
lemma hexLoop_eq_none_iff : ∀ (cs : List Char) (acc shift : Nat),
    hexLoop cs acc shift = none ↔ ∃ c ∈ cs, hexCharToByte c < 0 := by
  intro cs
  induction cs with
  | nil =>
    intro acc shift
    simp [hexLoop]
  | cons c cs ih =>
    intro acc shift
    simp only [hexLoop]
    by_cases hc : hexCharToByte c < 0
    · rw [if_pos hc]
      constructor
      · intro _
        exact ⟨c, List.mem_cons_self c cs, hc⟩
      · intro _
        rfl
    · rw [if_neg hc]
      rw [ih]
      constructor
      · rintro ⟨x, hx, hxneg⟩
        exact ⟨x, List.mem_cons_of_mem _ hx, hxneg⟩
      · rintro ⟨x, hx, hxneg⟩
        rcases List.mem_cons.mp hx with rfl | hx'
        · exact absurd hxneg hc
        · exact ⟨x, hx', hxneg⟩

/-- The loop, run on validated digits from an accumulator small enough
never to overflow, folds up the big-endian value. -/
lemma hexLoop_ok : ∀ (cs : List Char) (vs : List Nat) (acc : Nat),
    hexDigits? cs = some vs →
    (acc + 1) * 16 ^ cs.length ≤ 2 ^ 32 →
    hexLoop cs acc 4 = some (vs.foldl (fun a v => 16 * a + v) acc) := by
  intro cs
  induction cs with
  | nil =>
    intro vs acc h _
    simp only [hexDigits?, Option.some.injEq] at h
    subst h
    rfl
  | cons c cs ih =>
    intro vs acc h hacc
    simp only [hexDigits?] at h
    split at h
    · exact absurd h (by simp)
    · rcases hrec : hexDigits? cs with _ | vs'
      · rw [hrec] at h; exact absurd h (by simp)
      · rw [hrec] at h
        simp only [Option.map_some', Option.some.injEq] at h
        subst h
        have hb : ¬ hexCharToByte c < 0 := by assumption
        have hblt : (hexCharToByte c).toNat < 16 := by
          have := hexCharToByte_le15 c
          omega
        have hlen : (16 : Nat) ≤ 16 ^ (c :: cs).length := by
          rw [List.length_cons]
          calc (16 : Nat) = 16 ^ 1 := by norm_num
          _ ≤ 16 ^ (cs.length + 1) := Nat.pow_le_pow_right (by omega) (by omega)
        have hshift : acc <<< 4 = 16 * acc := by
          rw [Nat.shiftLeft_eq]
          ring
        have hacc16 : acc <<< 4 < 2 ^ 32 := by
          rw [hshift]
          have h1 : (acc + 1) * 16 ≤ (acc + 1) * 16 ^ (c :: cs).length :=
            Nat.mul_le_mul_left _ hlen
          omega
        have hmod : (acc <<< 4) % 2 ^ 32 = acc <<< 4 := Nat.mod_eq_of_lt hacc16
        simp only [hexLoop, if_neg hb, hmod,
          shiftLeft4_lor_small acc _ hblt]
        rw [List.foldl_cons]
        apply ih _ _ hrec
        have hstep : (16 * acc + (hexCharToByte c).toNat + 1) * 16 ^ cs.length ≤
            ((acc + 1) * 16) * 16 ^ cs.length := by
          apply Nat.mul_le_mul_right
          omega
        calc (16 * acc + (hexCharToByte c).toNat + 1) * 16 ^ cs.length
            ≤ ((acc + 1) * 16) * 16 ^ cs.length := hstep
        _ = (acc + 1) * 16 ^ (c :: cs).length := by
            rw [List.length_cons, pow_succ]
            ring
        _ ≤ 2 ^ 32 := hacc

/-- Starting the loop with shift 0 and accumulator 0 is the same as
starting it with shift 4. -/
lemma hexLoop_start (cs : List Char) : hexLoop cs 0 0 = hexLoop cs 0 4 := by
  cases cs with
  | nil => rfl
  | cons c cs => simp [hexLoop, Nat.zero_shiftLeft]

/-- The parser (uint32 instantiation) on a validated string of even
nonzero length at most 8 yields the big-endian digit value. -/
lemma hexCharToValue_eq_hexValBE {cs : List Char} {vs : List Nat}
    (h : hexDigits? cs = some vs) (h1 : cs.length ≠ 0)
    (h2 : cs.length % 2 = 0) (h3 : cs.length ≤ 8) :
    hexCharToValue cs = some (hexValBE vs) := by
  unfold hexCharToValue
  rw [if_neg (by omega)]
  rw [hexLoop_start, hexLoop_ok cs vs 0 h]
  · rfl
  · have hp : (16 : Nat) ^ cs.length ≤ 16 ^ 8 := Nat.pow_le_pow_right (by omega) h3
    omega

/-- A big-endian digit value is below 16 to the number of digits. -/
lemma hexValBE_lt {vs : List Nat} (h : ∀ v ∈ vs, v < 16) :
    hexValBE vs < 16 ^ vs.length := by
  suffices hgen : ∀ (vs : List Nat) (acc : Nat), (∀ v ∈ vs, v < 16) →
      vs.foldl (fun a v => 16 * a + v) acc < (acc + 1) * 16 ^ vs.length by
    have := hgen vs 0 h
    simpa [hexValBE] using this
  intro vs
  induction vs with
  | nil =>
    intro acc _
    simp
  | cons v vs ih =>
    intro acc hall
    rw [List.foldl_cons, List.length_cons]
    calc vs.foldl (fun a v => 16 * a + v) (16 * acc + v)
        < (16 * acc + v + 1) * 16 ^ vs.length :=
          ih _ (fun x hx => hall x (List.mem_cons_of_mem _ hx))
    _ ≤ ((acc + 1) * 16) * 16 ^ vs.length := by
        apply Nat.mul_le_mul_right
        have := hall v (List.mem_cons_self v vs)
        omega
    _ = (acc + 1) * 16 ^ (vs.length + 1) := by
        rw [pow_succ]
        ring

/-- toInt32 is the identity below 2^31. -/
lemma toInt32_of_lt {p : Nat} (h : p < 2 ^ 31) : toInt32 p = (p : Int) := by
  unfold toInt32
  rw [if_pos h]

/-- toInt32 subtracts 2^32 from patterns at or above 2^31. -/
lemma toInt32_of_ge {p : Nat} (h : 2 ^ 31 ≤ p) : toInt32 p = (p : Int) - 2 ^ 32 := by
  unfold toInt32
  rw [if_neg (by omega)]

/-- The classifier returns Ascii on [0, 0x7F]. -/
lemma cpType_ascii {cp : Int} (h1 : 0 ≤ cp) (h2 : cp ≤ 0x7F) :
    utf8CodePointType cp = .Ascii := by
  unfold utf8CodePointType
  split_ifs <;> first | rfl | omega

/-- The classifier returns Latin on [0x80, 0x7FF]. -/
lemma cpType_latin {cp : Int} (h1 : 0x80 ≤ cp) (h2 : cp ≤ 0x7FF) :
    utf8CodePointType cp = .Latin := by
  unfold utf8CodePointType
  split_ifs <;> first | rfl | omega

/-- The classifier returns MultiLingual on [0x800, 0xFFFF] minus surrogates. -/
lemma cpType_ml {cp : Int}
    (h : (0x800 ≤ cp ∧ cp ≤ 0xD7FF) ∨ (0xE000 ≤ cp ∧ cp ≤ 0xFFFF)) :
    utf8CodePointType cp = .MultiLingual := by
  unfold utf8CodePointType
  split_ifs <;> first | rfl | omega

/-- The classifier returns Extended on [0x10000, 0x10FFFF]. -/
lemma cpType_extended {cp : Int} (h1 : 0x10000 ≤ cp) (h2 : cp ≤ 0x10FFFF) :
    utf8CodePointType cp = .Extended := by
  unfold utf8CodePointType
  split_ifs <;> first | rfl | omega

/-- The classifier returns Invalid off the legal ranges. -/
lemma cpType_invalid {cp : Int}
    (h : cp < 0 ∨ 0x10FFFF < cp ∨ (0xD800 ≤ cp ∧ cp ≤ 0xDFFF)) :
    utf8CodePointType cp = .Invalid := by
  unfold utf8CodePointType
  split_ifs <;> first | rfl | omega

/-- An Invalid classification can only come from off-range input. -/
lemma cpType_invalid_ranges {cp : Int} (h : utf8CodePointType cp = .Invalid) :
    cp < 0 ∨ 0x10FFFF < cp ∨ (0xD800 ≤ cp ∧ cp ≤ 0xDFFF) := by
  revert h
  unfold utf8CodePointType
  split_ifs <;> intro h
  · exact absurd h (by decide)
  · exact absurd h (by decide)
  · exact absurd h (by decide)
  · exact absurd h (by decide)
  · omega

/-- A digit-value equation forces the value below 16. -/
lemma lt16_of_byte_eq {c : Char} {v : Nat} (h : hexCharToByte c = (v : Int)) :
    v < 16 := by
  have := hexCharToByte_le15 c
  rw [h] at this
  omega

/-- hexDigitVal agrees with a digit-value equation. -/
lemma hexDigitVal_of {c : Char} {v : Nat} (h : hexCharToByte c = (v : Int)) :
    hexDigitVal c = v := by
  simp [hexDigitVal, h]

/-- hexDigits? on the empty string. -/
lemma hexDigits?_nil : hexDigits? [] = some [] := rfl

/-- hexDigits? extended by one validated digit. -/
lemma hexDigits?_cons_of {c : Char} {v : Nat} {cs : List Char} {vs : List Nat}
    (h : hexCharToByte c = (v : Int)) (hrest : hexDigits? cs = some vs) :
    hexDigits? (c :: cs) = some (v :: vs) := by
  have hneg : ¬ ((v : Int) < 0) := by omega
  simp only [hexDigits?, h, if_neg hneg, hrest, Option.map_some', Int.toNat_natCast]

/-- Expansion of the big-endian value of four digits. -/
lemma hexValBE_four (v0 v1 v2 v3 : Nat) :
    hexValBE [v0, v1, v2, v3] = v0 * 4096 + v1 * 256 + v2 * 16 + v3 := by
  simp only [hexValBE, List.foldl]
  ring

/-- Expansion of the big-endian value of six digits. -/
lemma hexValBE_six (v0 v1 v2 v3 v4 v5 : Nat) :
    hexValBE [v0, v1, v2, v3, v4, v5] =
      v0 * 1048576 + v1 * 65536 + v2 * 4096 + v3 * 256 + v4 * 16 + v5 := by
  simp only [hexValBE, List.foldl]
  ring

/-- Expansion of the big-endian value of eight digits. -/
lemma hexValBE_eight (v0 v1 v2 v3 v4 v5 v6 v7 : Nat) :
    hexValBE [v0, v1, v2, v3, v4, v5, v6, v7] =
      v0 * 268435456 + v1 * 16777216 + v2 * 1048576 + v3 * 65536 +
      v4 * 4096 + v5 * 256 + v6 * 16 + v7 := by
  simp only [hexValBE, List.foldl]
  ring

/-- Latin byte 1 as arithmetic on digit values. -/
lemma latinByte1_eq {v1 v2 : Nat} (h1 : v1 < 16) (h2 : v2 < 16) :
    latinByte1 v1 v2 = 0xC0 + v1 % 8 * 4 + v2 / 4 := by
  have hall : ∀ a b : Fin 16, latinByte1 a.val b.val = 0xC0 + a.val % 8 * 4 + b.val / 4 := by
    decide
  exact hall ⟨v1, h1⟩ ⟨v2, h2⟩

/-- Latin byte 2 as arithmetic on digit values. -/
lemma latinByte2_eq {v2 v3 : Nat} (h2 : v2 < 16) (h3 : v3 < 16) :
    latinByte2 v2 v3 = 0x80 + v2 % 4 * 16 + v3 := by
  have hall : ∀ a b : Fin 16, latinByte2 a.val b.val = 0x80 + a.val % 4 * 16 + b.val := by
    decide
  exact hall ⟨v2, h2⟩ ⟨v3, h3⟩

/-- MultiLingual byte 1 as arithmetic on digit values. -/
lemma mlByte1_eq {v0 : Nat} (h0 : v0 < 16) : mlByte1 v0 = 0xE0 + v0 := by
  have hall : ∀ a : Fin 16, mlByte1 a.val = 0xE0 + a.val := by decide
  exact hall ⟨v0, h0⟩

/-- MultiLingual byte 2 as arithmetic on digit values. -/
lemma mlByte2_eq {v1 v2 : Nat} (h1 : v1 < 16) (h2 : v2 < 16) :
    mlByte2 v1 v2 = 0x80 + v1 * 4 + v2 / 4 := by
  have hall : ∀ a b : Fin 16, mlByte2 a.val b.val = 0x80 + a.val * 4 + b.val / 4 := by
    decide
  exact hall ⟨v1, h1⟩ ⟨v2, h2⟩

/-- MultiLingual byte 3 as arithmetic on digit values. -/
lemma mlByte3_eq {v2 v3 : Nat} (h2 : v2 < 16) (h3 : v3 < 16) :
    mlByte3 v2 v3 = 0x80 + v2 % 4 * 16 + v3 := by
  have hall : ∀ a b : Fin 16, mlByte3 a.val b.val = 0x80 + a.val % 4 * 16 + b.val := by
    decide
  exact hall ⟨v2, h2⟩ ⟨v3, h3⟩

/-- Extended byte 1 as arithmetic on digit values: despite the
operator-precedence anomaly, the sign-extension bits introduced by the
early `char` cast lie above bit 7 and are discarded by the final
truncation, so the byte carries exactly `11110uvv`. -/
lemma extByte1_eq {v0 v1 : Nat} (h0 : v0 < 16) (h1 : v1 < 16) :
    extByte1 v0 v1 = 0xF0 + v0 % 2 * 4 + v1 / 4 := by
  have hall : ∀ a b : Fin 16, extByte1 a.val b.val = 0xF0 + a.val % 2 * 4 + b.val / 4 := by
    decide
  exact hall ⟨v0, h0⟩ ⟨v1, h1⟩

/-- Extended byte 2 as arithmetic on digit values. -/
lemma extByte2_eq {v1 v2 : Nat} (h1 : v1 < 16) (h2 : v2 < 16) :
    extByte2 v1 v2 = 0x80 + v1 % 4 * 16 + v2 := by
  have hall : ∀ a b : Fin 16, extByte2 a.val b.val = 0x80 + a.val % 4 * 16 + b.val := by
    decide
  exact hall ⟨v1, h1⟩ ⟨v2, h2⟩

/-- Extended byte 3 as arithmetic on digit values. -/
lemma extByte3_eq {v3 v4 : Nat} (h3 : v3 < 16) (h4 : v4 < 16) :
    extByte3 v3 v4 = 0x80 + v3 * 4 + v4 / 4 := by
  have hall : ∀ a b : Fin 16, extByte3 a.val b.val = 0x80 + a.val * 4 + b.val / 4 := by
    decide
  exact hall ⟨v3, h3⟩ ⟨v4, h4⟩

/-- Extended byte 4 as arithmetic on digit values. -/
lemma extByte4_eq {v4 v5 : Nat} (h4 : v4 < 16) (h5 : v5 < 16) :
    extByte4 v4 v5 = 0x80 + v4 % 4 * 16 + v5 := by
  have hall : ∀ a b : Fin 16, extByte4 a.val b.val = 0x80 + a.val % 4 * 16 + b.val := by
    decide
  exact hall ⟨v4, h4⟩ ⟨v5, h5⟩

/-- hexCharToByte reads back the hex character of a digit value. -/
lemma hexCharToByte_nibbleChar {v : Nat} (h : v < 16) :
    hexCharToByte (nibbleChar v) = (v : Int) := by
  have hall : ∀ a : Fin 16, hexCharToByte (nibbleChar a.val) = (a.val : Int) := by decide
  exact hall ⟨v, h⟩

/-- The parser on four validated digits. -/
lemma parse4 (a0 a1 a2 a3 : Char) (v0 v1 v2 v3 : Nat)
    (h0 : hexCharToByte a0 = (v0 : Int)) (h1 : hexCharToByte a1 = (v1 : Int))
    (h2 : hexCharToByte a2 = (v2 : Int)) (h3 : hexCharToByte a3 = (v3 : Int)) :
    hexCharToValue [a0, a1, a2, a3] = some (v0 * 4096 + v1 * 256 + v2 * 16 + v3) := by
  have hd : hexDigits? [a0, a1, a2, a3] = some [v0, v1, v2, v3] :=
    hexDigits?_cons_of h0 (hexDigits?_cons_of h1 (hexDigits?_cons_of h2
      (hexDigits?_cons_of h3 hexDigits?_nil)))
  rw [hexCharToValue_eq_hexValBE hd (by simp) (by simp) (by simp), hexValBE_four]

/-- The int32 parser on four validated digits (the value fits in 16 bits). -/
lemma parse4_int (a0 a1 a2 a3 : Char) (v0 v1 v2 v3 : Nat)
    (h0 : hexCharToByte a0 = (v0 : Int)) (h1 : hexCharToByte a1 = (v1 : Int))
    (h2 : hexCharToByte a2 = (v2 : Int)) (h3 : hexCharToByte a3 = (v3 : Int)) :
    hexCharToValueInt32 [a0, a1, a2, a3] =
      some ((v0 * 4096 + v1 * 256 + v2 * 16 + v3 : Nat) : Int) := by
  have l0 := lt16_of_byte_eq h0
  have l1 := lt16_of_byte_eq h1
  have l2 := lt16_of_byte_eq h2
  have l3 := lt16_of_byte_eq h3
  unfold hexCharToValueInt32
  rw [parse4 a0 a1 a2 a3 v0 v1 v2 v3 h0 h1 h2 h3, Option.map_some',
    toInt32_of_lt (by omega)]

/-- The parser on six validated digits. -/
lemma parse6 (a0 a1 a2 a3 a4 a5 : Char) (v0 v1 v2 v3 v4 v5 : Nat)
    (h0 : hexCharToByte a0 = (v0 : Int)) (h1 : hexCharToByte a1 = (v1 : Int))
    (h2 : hexCharToByte a2 = (v2 : Int)) (h3 : hexCharToByte a3 = (v3 : Int))
    (h4 : hexCharToByte a4 = (v4 : Int)) (h5 : hexCharToByte a5 = (v5 : Int)) :
    hexCharToValue [a0, a1, a2, a3, a4, a5] =
      some (v0 * 1048576 + v1 * 65536 + v2 * 4096 + v3 * 256 + v4 * 16 + v5) := by
  have hd : hexDigits? [a0, a1, a2, a3, a4, a5] = some [v0, v1, v2, v3, v4, v5] :=
    hexDigits?_cons_of h0 (hexDigits?_cons_of h1 (hexDigits?_cons_of h2
      (hexDigits?_cons_of h3 (hexDigits?_cons_of h4
        (hexDigits?_cons_of h5 hexDigits?_nil)))))
  rw [hexCharToValue_eq_hexValBE hd (by simp) (by simp) (by simp), hexValBE_six]

/-- The int32 parser on six validated digits (the value fits in 24 bits). -/
lemma parse6_int (a0 a1 a2 a3 a4 a5 : Char) (v0 v1 v2 v3 v4 v5 : Nat)
    (h0 : hexCharToByte a0 = (v0 : Int)) (h1 : hexCharToByte a1 = (v1 : Int))
    (h2 : hexCharToByte a2 = (v2 : Int)) (h3 : hexCharToByte a3 = (v3 : Int))
    (h4 : hexCharToByte a4 = (v4 : Int)) (h5 : hexCharToByte a5 = (v5 : Int)) :
    hexCharToValueInt32 [a0, a1, a2, a3, a4, a5] =
      some ((v0 * 1048576 + v1 * 65536 + v2 * 4096 + v3 * 256 + v4 * 16 + v5 : Nat) : Int) := by
  have l0 := lt16_of_byte_eq h0
  have l1 := lt16_of_byte_eq h1
  have l2 := lt16_of_byte_eq h2
  have l3 := lt16_of_byte_eq h3
  have l4 := lt16_of_byte_eq h4
  have l5 := lt16_of_byte_eq h5
  unfold hexCharToValueInt32
  rw [parse6 a0 a1 a2 a3 a4 a5 v0 v1 v2 v3 v4 v5 h0 h1 h2 h3 h4 h5, Option.map_some',
    toInt32_of_lt (by omega)]

/-- The encoder on a four-digit Ascii-plane string yields the single byte
carrying the code point itself. -/
lemma encode4_ascii (a0 a1 a2 a3 : Char) (v0 v1 v2 v3 : Nat)
    (h0 : hexCharToByte a0 = (v0 : Int)) (h1 : hexCharToByte a1 = (v1 : Int))
    (h2 : hexCharToByte a2 = (v2 : Int)) (h3 : hexCharToByte a3 = (v3 : Int))
    (hhi : v0 * 4096 + v1 * 256 + v2 * 16 + v3 ≤ 0x7F) :
    hexCodepointToUtf8String [a0, a1, a2, a3] =
      some [v0 * 4096 + v1 * 256 + v2 * 16 + v3] := by
  have hp := parse4_int a0 a1 a2 a3 v0 v1 v2 v3 h0 h1 h2 h3
  have htype : utf8CodePointType
      ((v0 * 4096 + v1 * 256 + v2 * 16 + v3 : Nat) : Int) = .Ascii :=
    cpType_ascii (by omega) (by omega)
  have hbyte : cppByteOfInt ((v0 * 4096 + v1 * 256 + v2 * 16 + v3 : Nat) : Int) =
      v0 * 4096 + v1 * 256 + v2 * 16 + v3 := by
    unfold cppByteOfInt
    omega
  simp only [hexCodepointToUtf8String, hp, htype, hbyte]

/-- The encoder on a four-digit Latin-plane string yields the standard
two-byte UTF-8 encoding of the code point. -/
lemma encode4_latin (a0 a1 a2 a3 : Char) (v0 v1 v2 v3 : Nat)
    (h0 : hexCharToByte a0 = (v0 : Int)) (h1 : hexCharToByte a1 = (v1 : Int))
    (h2 : hexCharToByte a2 = (v2 : Int)) (h3 : hexCharToByte a3 = (v3 : Int))
    (hlo : 0x80 ≤ v0 * 4096 + v1 * 256 + v2 * 16 + v3)
    (hhi : v0 * 4096 + v1 * 256 + v2 * 16 + v3 ≤ 0x7FF) :
    hexCodepointToUtf8String [a0, a1, a2, a3] =
      some [0xC0 + (v0 * 4096 + v1 * 256 + v2 * 16 + v3) / 64,
            0x80 + (v0 * 4096 + v1 * 256 + v2 * 16 + v3) % 64] := by
  have l0 := lt16_of_byte_eq h0
  have l1 := lt16_of_byte_eq h1
  have l2 := lt16_of_byte_eq h2
  have l3 := lt16_of_byte_eq h3
  have hp := parse4_int a0 a1 a2 a3 v0 v1 v2 v3 h0 h1 h2 h3
  have htype : utf8CodePointType
      ((v0 * 4096 + v1 * 256 + v2 * 16 + v3 : Nat) : Int) = .Latin :=
    cpType_latin (by omega) (by omega)
  have henc : encodeLatin [a0, a1, a2, a3] =
      some [latinByte1 (hexDigitVal a1) (hexDigitVal a2),
            latinByte2 (hexDigitVal a2) (hexDigitVal a3)] := rfl
  have e1 : latinByte1 v1 v2 = 0xC0 + (v0 * 4096 + v1 * 256 + v2 * 16 + v3) / 64 := by
    rw [latinByte1_eq l1 l2]
    omega
  have e2 : latinByte2 v2 v3 = 0x80 + (v0 * 4096 + v1 * 256 + v2 * 16 + v3) % 64 := by
    rw [latinByte2_eq l2 l3]
    omega
  simp only [hexCodepointToUtf8String, hp, htype, henc,
    hexDigitVal_of h1, hexDigitVal_of h2, hexDigitVal_of h3, e1, e2]

/-- The encoder on a four-digit MultiLingual-plane string yields the
standard three-byte UTF-8 encoding of the code point. -/
lemma encode4_ml (a0 a1 a2 a3 : Char) (v0 v1 v2 v3 : Nat)
    (h0 : hexCharToByte a0 = (v0 : Int)) (h1 : hexCharToByte a1 = (v1 : Int))
    (h2 : hexCharToByte a2 = (v2 : Int)) (h3 : hexCharToByte a3 = (v3 : Int))
    (hrange : (0x800 ≤ v0 * 4096 + v1 * 256 + v2 * 16 + v3 ∧
               v0 * 4096 + v1 * 256 + v2 * 16 + v3 ≤ 0xD7FF) ∨
              (0xE000 ≤ v0 * 4096 + v1 * 256 + v2 * 16 + v3 ∧
               v0 * 4096 + v1 * 256 + v2 * 16 + v3 ≤ 0xFFFF)) :
    hexCodepointToUtf8String [a0, a1, a2, a3] =
      some [0xE0 + (v0 * 4096 + v1 * 256 + v2 * 16 + v3) / 4096,
            0x80 + (v0 * 4096 + v1 * 256 + v2 * 16 + v3) / 64 % 64,
            0x80 + (v0 * 4096 + v1 * 256 + v2 * 16 + v3) % 64] := by
  have l0 := lt16_of_byte_eq h0
  have l1 := lt16_of_byte_eq h1
  have l2 := lt16_of_byte_eq h2
  have l3 := lt16_of_byte_eq h3
  have hp := parse4_int a0 a1 a2 a3 v0 v1 v2 v3 h0 h1 h2 h3
  have htype : utf8CodePointType
      ((v0 * 4096 + v1 * 256 + v2 * 16 + v3 : Nat) : Int) = .MultiLingual :=
    cpType_ml (by omega)
  have henc : encodeMultiLingual [a0, a1, a2, a3] =
      some [mlByte1 (hexDigitVal a0),
            mlByte2 (hexDigitVal a1) (hexDigitVal a2),
            mlByte3 (hexDigitVal a2) (hexDigitVal a3)] := rfl
  have e1 : mlByte1 v0 = 0xE0 + (v0 * 4096 + v1 * 256 + v2 * 16 + v3) / 4096 := by
    rw [mlByte1_eq l0]
    omega
  have e2 : mlByte2 v1 v2 = 0x80 + (v0 * 4096 + v1 * 256 + v2 * 16 + v3) / 64 % 64 := by
    rw [mlByte2_eq l1 l2]
    omega
  have e3 : mlByte3 v2 v3 = 0x80 + (v0 * 4096 + v1 * 256 + v2 * 16 + v3) % 64 := by
    rw [mlByte3_eq l2 l3]
    omega
  simp only [hexCodepointToUtf8String, hp, htype, henc,
    hexDigitVal_of h0, hexDigitVal_of h1, hexDigitVal_of h2, hexDigitVal_of h3, e1, e2, e3]

/-- The encoder on a six-digit Extended-plane string yields the four bytes
of the UTF-8 packing table, nibble for nibble. -/
lemma encode6_ext (a0 a1 a2 a3 a4 a5 : Char) (v0 v1 v2 v3 v4 v5 : Nat)
    (h0 : hexCharToByte a0 = (v0 : Int)) (h1 : hexCharToByte a1 = (v1 : Int))
    (h2 : hexCharToByte a2 = (v2 : Int)) (h3 : hexCharToByte a3 = (v3 : Int))
    (h4 : hexCharToByte a4 = (v4 : Int)) (h5 : hexCharToByte a5 = (v5 : Int))
    (hlo : 0x10000 ≤ v0 * 1048576 + v1 * 65536 + v2 * 4096 + v3 * 256 + v4 * 16 + v5)
    (hhi : v0 * 1048576 + v1 * 65536 + v2 * 4096 + v3 * 256 + v4 * 16 + v5 ≤ 0x10FFFF) :
    hexCodepointToUtf8String [a0, a1, a2, a3, a4, a5] =
      some [0xF0 + v0 % 2 * 4 + v1 / 4,
            0x80 + v1 % 4 * 16 + v2,
            0x80 + v3 * 4 + v4 / 4,
            0x80 + v4 % 4 * 16 + v5] := by
  have l0 := lt16_of_byte_eq h0
  have l1 := lt16_of_byte_eq h1
  have l2 := lt16_of_byte_eq h2
  have l3 := lt16_of_byte_eq h3
  have l4 := lt16_of_byte_eq h4
  have l5 := lt16_of_byte_eq h5
  have hp := parse6_int a0 a1 a2 a3 a4 a5 v0 v1 v2 v3 v4 v5 h0 h1 h2 h3 h4 h5
  have htype : utf8CodePointType
      ((v0 * 1048576 + v1 * 65536 + v2 * 4096 + v3 * 256 + v4 * 16 + v5 : Nat) : Int) =
      .Extended :=
    cpType_extended (by omega) (by omega)
  have henc : encodeExtended [a0, a1, a2, a3, a4, a5] =
      some [extByte1 (hexDigitVal a0) (hexDigitVal a1),
            extByte2 (hexDigitVal a1) (hexDigitVal a2),
            extByte3 (hexDigitVal a3) (hexDigitVal a4),
            extByte4 (hexDigitVal a4) (hexDigitVal a5)] := rfl
  simp only [hexCodepointToUtf8String, hp, htype, henc,
    hexDigitVal_of h0, hexDigitVal_of h1, hexDigitVal_of h2,
    hexDigitVal_of h3, hexDigitVal_of h4, hexDigitVal_of h5,
    extByte1_eq l0 l1, extByte2_eq l1 l2, extByte3_eq l3 l4, extByte4_eq l4 l5]

/-- The Latin branch never returns the empty string. -/
lemma encodeLatin_ne_empty (s : List Char) : encodeLatin s ≠ some [] := by
  unfold encodeLatin
  rcases s.get? 1 with _ | h1 <;> rcases s.get? 2 with _ | h2 <;>
    rcases s.get? 3 with _ | h3 <;> simp

/-- The MultiLingual branch never returns the empty string. -/
lemma encodeMultiLingual_ne_empty (s : List Char) : encodeMultiLingual s ≠ some [] := by
  unfold encodeMultiLingual
  rcases s.get? 0 with _ | h0 <;> rcases s.get? 1 with _ | h1 <;>
    rcases s.get? 2 with _ | h2 <;> rcases s.get? 3 with _ | h3 <;> simp

/-- The Extended branch never returns the empty string. -/
lemma encodeExtended_ne_empty (s : List Char) : encodeExtended s ≠ some [] := by
  unfold encodeExtended
  rcases s.get? 0 with _ | h0 <;> rcases s.get? 1 with _ | h1 <;>
    rcases s.get? 2 with _ | h2 <;> rcases s.get? 3 with _ | h3 <;>
    rcases s.get? 4 with _ | h4 <;> rcases s.get? 5 with _ | h5 <;> simp

/-- The parser fails exactly on a bad length or a bad character. -/
lemma hexCharToValue_eq_none_iff (s : List Char) :
    hexCharToValue s = none ↔
      (s.length = 0 ∨ s.length % 2 = 1 ∨ 8 < s.length ∨
       ∃ c ∈ s, hexCharToByte c < 0) := by
  unfold hexCharToValue
  by_cases hg : s.length = 0 ∨ s.length % 2 ≠ 0 ∨ 8 < s.length
  · rw [if_pos hg]
    constructor
    · intro _
      rcases hg with h | h | h
      · exact Or.inl h
      · exact Or.inr (Or.inl (by omega))
      · exact Or.inr (Or.inr (Or.inl h))
    · intro _
      rfl
  · rw [if_neg hg]
    rw [hexLoop_eq_none_iff]
    constructor
    · intro h
      exact Or.inr (Or.inr (Or.inr h))
    · intro h
      rcases h with h | h | h | h
      · exact absurd (Or.inl h) hg
      · exact absurd (Or.inr (Or.inl (by omega))) hg
      · exact absurd (Or.inr (Or.inr h)) hg
      · exact h

/-- The int32 parser fails exactly when the uint32 parser fails. -/
lemma hexCharToValueInt32_eq_none_iff (s : List Char) :
    hexCharToValueInt32 s = none ↔ hexCharToValue s = none := by
  unfold hexCharToValueInt32
  rcases hexCharToValue s with _ | p <;> simp

/-- C4: encode returns three bytes just below and just above the surrogate
block ("D7FF" → ED 9F BF, "E000" → EE 80 80) and the empty failure result
on the surrogate endpoints "D800" and "DFFF". -/
theorem encode_surrogate_boundary :
    hexCodepointToUtf8String "D7FF".toList = some [0xED, 0x9F, 0xBF] ∧
    hexCodepointToUtf8String "E000".toList = some [0xEE, 0x80, 0x80] ∧
    hexCodepointToUtf8String "D800".toList = some [] ∧
    hexCodepointToUtf8String "DFFF".toList = some [] := by
  decide

/-- C9: the two-digit string "80" is accepted by the parser (value 0x80,
plane Latin), and on it the Latin branch of the encoder reads hex-string
positions past the end of the input, reaching the out-of-range branch of
the embedding. -/
theorem encode_latin_two_digit_oob :
    hexCharToValueInt32 "80".toList = some 0x80 ∧
    utf8CodePointType 0x80 = .Latin ∧
    hexCodepointToUtf8String "80".toList = none := by
  decide

/-- Reference decoder on an accepted single byte. -/
lemma utf8Decode_one (b1 : Nat) (h : b1 ≤ 0x7F) : utf8Decode [b1] = some b1 := by
  have hred : utf8Decode [b1] = if b1 ≤ 0x7F then some b1 else none := rfl
  rw [hred, if_pos h]

/-- Reference decoder on an accepted two-byte sequence. -/
lemma utf8Decode_two (b1 b2 : Nat)
    (h : 0xC2 ≤ b1 ∧ b1 ≤ 0xDF ∧ 0x80 ≤ b2 ∧ b2 ≤ 0xBF) :
    utf8Decode [b1, b2] = some ((b1 - 0xC0) * 64 + (b2 - 0x80)) := by
  have hred : utf8Decode [b1, b2] =
      if 0xC2 ≤ b1 ∧ b1 ≤ 0xDF ∧ 0x80 ≤ b2 ∧ b2 ≤ 0xBF then
        some ((b1 - 0xC0) * 64 + (b2 - 0x80))
      else none := rfl
  rw [hred, if_pos h]

/-- Reference decoder on an accepted three-byte sequence. -/
lemma utf8Decode_three (b1 b2 b3 : Nat)
    (h : ((b1 = 0xE0 ∧ 0xA0 ≤ b2 ∧ b2 ≤ 0xBF) ∨
          (0xE1 ≤ b1 ∧ b1 ≤ 0xEC ∧ 0x80 ≤ b2 ∧ b2 ≤ 0xBF) ∨
          (b1 = 0xED ∧ 0x80 ≤ b2 ∧ b2 ≤ 0x9F) ∨
          (0xEE ≤ b1 ∧ b1 ≤ 0xEF ∧ 0x80 ≤ b2 ∧ b2 ≤ 0xBF)) ∧
         (0x80 ≤ b3 ∧ b3 ≤ 0xBF)) :
    utf8Decode [b1, b2, b3] =
      some ((b1 - 0xE0) * 4096 + (b2 - 0x80) * 64 + (b3 - 0x80)) := by
  have hred : utf8Decode [b1, b2, b3] =
      if ((b1 = 0xE0 ∧ 0xA0 ≤ b2 ∧ b2 ≤ 0xBF) ∨
          (0xE1 ≤ b1 ∧ b1 ≤ 0xEC ∧ 0x80 ≤ b2 ∧ b2 ≤ 0xBF) ∨
          (b1 = 0xED ∧ 0x80 ≤ b2 ∧ b2 ≤ 0x9F) ∨
          (0xEE ≤ b1 ∧ b1 ≤ 0xEF ∧ 0x80 ≤ b2 ∧ b2 ≤ 0xBF)) ∧
         (0x80 ≤ b3 ∧ b3 ≤ 0xBF) then
        some ((b1 - 0xE0) * 4096 + (b2 - 0x80) * 64 + (b3 - 0x80))
      else none := rfl
  rw [hred, if_pos h]

/-- Reference decoder on an accepted four-byte sequence. -/
lemma utf8Decode_four (b1 b2 b3 b4 : Nat)
    (h : ((b1 = 0xF0 ∧ 0x90 ≤ b2 ∧ b2 ≤ 0xBF) ∨
          (0xF1 ≤ b1 ∧ b1 ≤ 0xF3 ∧ 0x80 ≤ b2 ∧ b2 ≤ 0xBF) ∨
          (b1 = 0xF4 ∧ 0x80 ≤ b2 ∧ b2 ≤ 0x8F)) ∧
         (0x80 ≤ b3 ∧ b3 ≤ 0xBF) ∧ (0x80 ≤ b4 ∧ b4 ≤ 0xBF)) :
    utf8Decode [b1, b2, b3, b4] =
      some ((b1 - 0xF0) * 262144 + (b2 - 0x80) * 4096 + (b3 - 0x80) * 64 + (b4 - 0x80)) := by
  have hred : utf8Decode [b1, b2, b3, b4] =
      if ((b1 = 0xF0 ∧ 0x90 ≤ b2 ∧ b2 ≤ 0xBF) ∨
          (0xF1 ≤ b1 ∧ b1 ≤ 0xF3 ∧ 0x80 ≤ b2 ∧ b2 ≤ 0xBF) ∨
          (b1 = 0xF4 ∧ 0x80 ≤ b2 ∧ b2 ≤ 0x8F)) ∧
         (0x80 ≤ b3 ∧ b3 ≤ 0xBF) ∧ (0x80 ≤ b4 ∧ b4 ≤ 0xBF) then
        some ((b1 - 0xF0) * 262144 + (b2 - 0x80) * 4096 + (b3 - 0x80) * 64 + (b4 - 0x80))
      else none := rfl
  rw [hred, if_pos h]

/-- C8: on every valid four-digit hex string whose value is in
[0x0000, 0x007F], the encoder returns exactly one byte equal to the code
point value (so "0000" gives byte 0x00 and "007F" gives byte 0x7F). -/
theorem encode_ascii_four_digit (a0 a1 a2 a3 : Char) (v0 v1 v2 v3 : Nat)
    (h0 : hexCharToByte a0 = (v0 : Int)) (h1 : hexCharToByte a1 = (v1 : Int))
    (h2 : hexCharToByte a2 = (v2 : Int)) (h3 : hexCharToByte a3 = (v3 : Int))
    (hhi : v0 * 4096 + v1 * 256 + v2 * 16 + v3 ≤ 0x7F) :
    hexCodepointToUtf8String [a0, a1, a2, a3] =
      some [v0 * 4096 + v1 * 256 + v2 * 16 + v3] :=
  encode4_ascii a0 a1 a2 a3 v0 v1 v2 v3 h0 h1 h2 h3 hhi

/-- C8 witness: the boundary instance "007F". -/
theorem encode_ascii_four_digit_witness :
    hexCodepointToUtf8String ['0', '0', '7', 'F'] = some [0x7F] := by
  have h := encode_ascii_four_digit '0' '0' '7' 'F' 0 0 7 15
    (by decide) (by decide) (by decide) (by decide) (by omega)
  simpa using h

/-- C2 counterexample: the six-digit string "000080" is a valid hex string
(any even length up to 8 is accepted) whose value 0x80 lies in
[0x80, 0x7FF], yet the encoder emits the overlong pair C0 80, which no
standards-compliant decoder maps back to 0x80. -/
theorem encode_latin_six_digit_overlong :
    hexCharToValueInt32 "000080".toList = some 0x80 ∧
    hexCodepointToUtf8String "000080".toList = some [0xC0, 0x80] ∧
    utf8Decode [0xC0, 0x80] ≠ some 0x80 := by
  decide

/-- C2 (amended to four-digit inputs): on every valid four-digit hex
string whose value is in [0x0080, 0x07FF], the encoder returns exactly two
bytes, a 110-prefixed lead byte and a 10-prefixed continuation byte, and
the reference decoder recovers the code point from them. -/
theorem encode_latin_four_digit_decodes (a0 a1 a2 a3 : Char) (v0 v1 v2 v3 : Nat)
    (h0 : hexCharToByte a0 = (v0 : Int)) (h1 : hexCharToByte a1 = (v1 : Int))
    (h2 : hexCharToByte a2 = (v2 : Int)) (h3 : hexCharToByte a3 = (v3 : Int))
    (hlo : 0x80 ≤ v0 * 4096 + v1 * 256 + v2 * 16 + v3)
    (hhi : v0 * 4096 + v1 * 256 + v2 * 16 + v3 ≤ 0x7FF) :
    ∃ b1 b2,
      hexCodepointToUtf8String [a0, a1, a2, a3] = some [b1, b2] ∧
      b1 / 32 = 0b110 ∧ b2 / 64 = 0b10 ∧
      utf8Decode [b1, b2] = some (v0 * 4096 + v1 * 256 + v2 * 16 + v3) := by
  refine ⟨0xC0 + (v0 * 4096 + v1 * 256 + v2 * 16 + v3) / 64,
          0x80 + (v0 * 4096 + v1 * 256 + v2 * 16 + v3) % 64,
          encode4_latin a0 a1 a2 a3 v0 v1 v2 v3 h0 h1 h2 h3 hlo hhi,
          by omega, by omega, ?_⟩
  rw [utf8Decode_two _ _ ⟨by omega, by omega, by omega, by omega⟩]
  exact congrArg some (by omega)

/-- C2 witness: the boundary instance "0080" decodes back to 0x80. -/
theorem encode_latin_four_digit_decodes_witness :
    ∃ b1 b2,
      hexCodepointToUtf8String ['0', '0', '8', '0'] = some [b1, b2] ∧
      b1 / 32 = 0b110 ∧ b2 / 64 = 0b10 ∧
      utf8Decode [b1, b2] = some 0x80 := by
  have h := encode_latin_four_digit_decodes '0' '0' '8' '0' 0 0 8 0
    (by decide) (by decide) (by decide) (by decide) (by omega) (by omega)
  simpa using h

/-- C1: on every six-digit hex string whose value is in the Extended plane
[0x10000, 0x10FFFF], the encoder returns exactly the four bytes of the
UTF-8 packing table — byte 1 = 11110uvv, byte 2 = 10vvwwww,
byte 3 = 10xxxxyy, byte 4 = 10yyzzzz for successive input nibbles
u(=v0 low bit), v(=v1), w(=v2), x(=v3), y(=v4), z(=v5); the
operator-precedence anomaly in the source's byte-1 expression does not
change the produced bits. -/
theorem encode_extended_six_digit_table (a0 a1 a2 a3 a4 a5 : Char)
    (v0 v1 v2 v3 v4 v5 : Nat)
    (h0 : hexCharToByte a0 = (v0 : Int)) (h1 : hexCharToByte a1 = (v1 : Int))
    (h2 : hexCharToByte a2 = (v2 : Int)) (h3 : hexCharToByte a3 = (v3 : Int))
    (h4 : hexCharToByte a4 = (v4 : Int)) (h5 : hexCharToByte a5 = (v5 : Int))
    (hlo : 0x10000 ≤ v0 * 1048576 + v1 * 65536 + v2 * 4096 + v3 * 256 + v4 * 16 + v5)
    (hhi : v0 * 1048576 + v1 * 65536 + v2 * 4096 + v3 * 256 + v4 * 16 + v5 ≤ 0x10FFFF) :
    hexCodepointToUtf8String [a0, a1, a2, a3, a4, a5] =
      some [0xF0 + v0 % 2 * 4 + v1 / 4,
            0x80 + v1 % 4 * 16 + v2,
            0x80 + v3 * 4 + v4 / 4,
            0x80 + v4 % 4 * 16 + v5] :=
  encode6_ext a0 a1 a2 a3 a4 a5 v0 v1 v2 v3 v4 v5 h0 h1 h2 h3 h4 h5 hlo hhi

/-- C1 witness: the two boundary instances "010000" and "10FFFF". -/
theorem encode_extended_six_digit_table_witness :
    hexCodepointToUtf8String ['0', '1', '0', '0', '0', '0'] =
      some [0xF0, 0x90, 0x80, 0x80] ∧
    hexCodepointToUtf8String ['1', '0', 'F', 'F', 'F', 'F'] =
      some [0xF4, 0x8F, 0xBF, 0xBF] := by
  constructor
  · have h := encode_extended_six_digit_table '0' '1' '0' '0' '0' '0' 0 1 0 0 0 0
      (by decide) (by decide) (by decide) (by decide) (by decide) (by decide)
      (by omega) (by omega)
    simpa using h
  · have h := encode_extended_six_digit_table '1' '0' 'F' 'F' 'F' 'F' 1 0 15 15 15 15
      (by decide) (by decide) (by decide) (by decide) (by decide) (by decide)
      (by omega) (by omega)
    simpa using h

/-- C10: an eight-digit hex string whose leading digit is 8 or more parses,
in the signed 32-bit holder, to the unsigned value reduced modulo 2^32
(hence negative); the classifier maps it to Invalid and the encoder
returns the empty failure result. -/
theorem parse_eight_digit_negative (a0 a1 a2 a3 a4 a5 a6 a7 : Char)
    (v0 v1 v2 v3 v4 v5 v6 v7 : Nat)
    (h0 : hexCharToByte a0 = (v0 : Int)) (h1 : hexCharToByte a1 = (v1 : Int))
    (h2 : hexCharToByte a2 = (v2 : Int)) (h3 : hexCharToByte a3 = (v3 : Int))
    (h4 : hexCharToByte a4 = (v4 : Int)) (h5 : hexCharToByte a5 = (v5 : Int))
    (h6 : hexCharToByte a6 = (v6 : Int)) (h7 : hexCharToByte a7 = (v7 : Int))
    (hv0 : 8 ≤ v0) :
    ∃ v : Int,
      hexCharToValueInt32 [a0, a1, a2, a3, a4, a5, a6, a7] = some v ∧
      v = ((v0 * 268435456 + v1 * 16777216 + v2 * 1048576 + v3 * 65536 +
            v4 * 4096 + v5 * 256 + v6 * 16 + v7 : Nat) : Int) - 2 ^ 32 ∧
      v < 0 ∧
      utf8CodePointType v = .Invalid ∧
      hexCodepointToUtf8String [a0, a1, a2, a3, a4, a5, a6, a7] = some [] := by
  have l0 := lt16_of_byte_eq h0
  have l1 := lt16_of_byte_eq h1
  have l2 := lt16_of_byte_eq h2
  have l3 := lt16_of_byte_eq h3
  have l4 := lt16_of_byte_eq h4
  have l5 := lt16_of_byte_eq h5
  have l6 := lt16_of_byte_eq h6
  have l7 := lt16_of_byte_eq h7
  have hd : hexDigits? [a0, a1, a2, a3, a4, a5, a6, a7] =
      some [v0, v1, v2, v3, v4, v5, v6, v7] :=
    hexDigits?_cons_of h0 (hexDigits?_cons_of h1 (hexDigits?_cons_of h2
      (hexDigits?_cons_of h3 (hexDigits?_cons_of h4 (hexDigits?_cons_of h5
        (hexDigits?_cons_of h6 (hexDigits?_cons_of h7 hexDigits?_nil)))))))
  have hv : hexCharToValue [a0, a1, a2, a3, a4, a5, a6, a7] =
      some (hexValBE [v0, v1, v2, v3, v4, v5, v6, v7]) :=
    hexCharToValue_eq_hexValBE hd (by simp) (by simp) (by simp)
  rw [hexValBE_eight] at hv
  have hge : 2 ^ 31 ≤ v0 * 268435456 + v1 * 16777216 + v2 * 1048576 + v3 * 65536 +
      v4 * 4096 + v5 * 256 + v6 * 16 + v7 := by omega
  have hparse : hexCharToValueInt32 [a0, a1, a2, a3, a4, a5, a6, a7] =
      some (((v0 * 268435456 + v1 * 16777216 + v2 * 1048576 + v3 * 65536 +
              v4 * 4096 + v5 * 256 + v6 * 16 + v7 : Nat) : Int) - 2 ^ 32) := by
    unfold hexCharToValueInt32
    rw [hv, Option.map_some', toInt32_of_ge hge]
  have hneg : ((v0 * 268435456 + v1 * 16777216 + v2 * 1048576 + v3 * 65536 +
              v4 * 4096 + v5 * 256 + v6 * 16 + v7 : Nat) : Int) - 2 ^ 32 < 0 := by
    omega
  have htype := cpType_invalid (Or.inl hneg)
  refine ⟨_, hparse, rfl, hneg, htype, ?_⟩
  simp only [hexCodepointToUtf8String, hparse, htype]

/-- C10 witness: "FFFFFFFF" parses to a negative int32 and fails. -/
theorem parse_eight_digit_negative_witness :
    ∃ v : Int,
      hexCharToValueInt32 ['F', 'F', 'F', 'F', 'F', 'F', 'F', 'F'] = some v ∧
      v < 0 ∧
      utf8CodePointType v = .Invalid ∧
      hexCodepointToUtf8String ['F', 'F', 'F', 'F', 'F', 'F', 'F', 'F'] = some [] := by
  obtain ⟨v, hp, _, hneg, htype, henc⟩ :=
    parse_eight_digit_negative 'F' 'F' 'F' 'F' 'F' 'F' 'F' 'F'
      15 15 15 15 15 15 15 15
      (by decide) (by decide) (by decide) (by decide)
      (by decide) (by decide) (by decide) (by decide) (by omega)
  exact ⟨v, hp, hneg, htype, henc⟩

/-- C5: the classifier realizes the spec's decision table on every int32
input: [0, 0x7F] → Ascii, [0x80, 0x7FF] → Latin, [0x800, 0xD7FF] and
[0xE000, 0xFFFF] → MultiLingual, [0x10000, 0x10FFFF] → Extended, and
everything else (negative, surrogates, above 0x10FFFF) → Invalid. -/
theorem utf8CodePointType_decision_table (cp : Int)
    (hlo : -(2 ^ 31) ≤ cp) (hhi : cp < 2 ^ 31) :
    (utf8CodePointType cp = .Ascii ↔ (0 ≤ cp ∧ cp ≤ 0x7F)) ∧
    (utf8CodePointType cp = .Latin ↔ (0x80 ≤ cp ∧ cp ≤ 0x7FF)) ∧
    (utf8CodePointType cp = .MultiLingual ↔
      ((0x800 ≤ cp ∧ cp ≤ 0xD7FF) ∨ (0xE000 ≤ cp ∧ cp ≤ 0xFFFF))) ∧
    (utf8CodePointType cp = .Extended ↔ (0x10000 ≤ cp ∧ cp ≤ 0x10FFFF)) ∧
    (utf8CodePointType cp = .Invalid ↔
      (cp < 0 ∨ (0xD800 ≤ cp ∧ cp ≤ 0xDFFF) ∨ 0x10FFFF < cp)) := by
  unfold utf8CodePointType
  split_ifs <;> simp_all <;> omega

/-- C5 witness: the surrogate 0xD800 is an int32 and classifies Invalid. -/
theorem utf8CodePointType_decision_table_witness :
    utf8CodePointType 0xD800 = .Invalid ↔
      ((0xD800 : Int) < 0 ∨ ((0xD800 : Int) ≤ 0xDFFF ∧ (0xD800 : Int) ≥ 0xD800) ∨
       (0x10FFFF : Int) < 0xD800) := by
  have h := (utf8CodePointType_decision_table 0xD800 (by omega) (by omega)).2.2.2.2
  constructor
  · intro hi
    exact Or.inr (Or.inl ⟨by omega, by omega⟩)
  · intro _
    exact h.mpr (Or.inr (Or.inl ⟨by omega, by omega⟩))

/-- After a successful parse the encoder is the plane dispatch. -/
lemma encode_eq_branch (s : List Char) (v : Int)
    (hp : hexCharToValueInt32 s = some v) :
    hexCodepointToUtf8String s =
      match utf8CodePointType v with
      | .Ascii => some [cppByteOfInt v]
      | .Latin => encodeLatin s
      | .MultiLingual => encodeMultiLingual s
      | .Extended => encodeExtended s
      | .Invalid => some [] := by
  unfold hexCodepointToUtf8String
  rw [hp]

/-- C6: the encoder returns the empty failure result exactly when the
input is empty, has odd length, is longer than the 8 digits a 32-bit
holder admits, holds a non-hex character, or parses to a code point
outside [0, 0x10FFFF] or inside the surrogate range.  (On inputs whose
parse succeeds with a legal code point the result is never empty — the
success branches push at least one byte, and the fixed-position branches
that would read past the end of the input are the `none` outcome, not the
empty string.) -/
theorem encode_failure_iff (s : List Char) :
    hexCodepointToUtf8String s = some [] ↔
      (s.length = 0 ∨ s.length % 2 = 1 ∨ 8 < s.length ∨
       (∃ c ∈ s, hexCharToByte c < 0) ∨
       (∃ v : Int, hexCharToValueInt32 s = some v ∧
          (v < 0 ∨ 0x10FFFF < v ∨ (0xD800 ≤ v ∧ v ≤ 0xDFFF)))) := by
  constructor
  · intro h
    rcases hp : hexCharToValueInt32 s with _ | v
    · have hn : hexCharToValue s = none := (hexCharToValueInt32_eq_none_iff s).mp hp
      rcases (hexCharToValue_eq_none_iff s).mp hn with h' | h' | h' | h'
      · exact Or.inl h'
      · exact Or.inr (Or.inl h')
      · exact Or.inr (Or.inr (Or.inl h'))
      · exact Or.inr (Or.inr (Or.inr (Or.inl h')))
    · rw [encode_eq_branch s v hp] at h
      rcases htype : utf8CodePointType v with _ | _ | _ | _ | _
      · rw [htype] at h
        simp at h
      · rw [htype] at h
        simp only at h
        exact absurd h (encodeLatin_ne_empty s)
      · rw [htype] at h
        simp only at h
        exact absurd h (encodeMultiLingual_ne_empty s)
      · rw [htype] at h
        simp only at h
        exact absurd h (encodeExtended_ne_empty s)
      · exact Or.inr (Or.inr (Or.inr (Or.inr ⟨v, rfl, cpType_invalid_ranges htype⟩)))
  · intro h
    rcases h with h' | h' | h' | h' | ⟨v, hp, hr⟩
    · have hn32 : hexCharToValueInt32 s = none :=
        (hexCharToValueInt32_eq_none_iff s).mpr
          ((hexCharToValue_eq_none_iff s).mpr (Or.inl h'))
      unfold hexCodepointToUtf8String
      rw [hn32]
    · have hn32 : hexCharToValueInt32 s = none :=
        (hexCharToValueInt32_eq_none_iff s).mpr
          ((hexCharToValue_eq_none_iff s).mpr (Or.inr (Or.inl h')))
      unfold hexCodepointToUtf8String
      rw [hn32]
    · have hn32 : hexCharToValueInt32 s = none :=
        (hexCharToValueInt32_eq_none_iff s).mpr
          ((hexCharToValue_eq_none_iff s).mpr (Or.inr (Or.inr (Or.inl h'))))
      unfold hexCodepointToUtf8String
      rw [hn32]
    · have hn32 : hexCharToValueInt32 s = none :=
        (hexCharToValueInt32_eq_none_iff s).mpr
          ((hexCharToValue_eq_none_iff s).mpr (Or.inr (Or.inr (Or.inr h'))))
      unfold hexCodepointToUtf8String
      rw [hn32]
    · rw [encode_eq_branch s v hp, cpType_invalid hr]

/-- C6 witness: the empty string fails with the empty result. -/
theorem encode_failure_iff_witness :
    hexCodepointToUtf8String ([] : List Char) = some [] := by
  have h := (encode_failure_iff []).mpr (Or.inl rfl)
  exact h

/-- The big-endian fold from any accumulator, as a positional sum. -/
lemma foldl_hex_general : ∀ (vs : List Nat) (acc : Nat),
    vs.foldl (fun a v => 16 * a + v) acc =
      acc * 16 ^ vs.length +
        ∑ i ∈ Finset.range vs.length, vs.getD i 0 * 16 ^ (vs.length - 1 - i) := by
  intro vs
  induction vs with
  | nil =>
    intro acc
    simp
  | cons v vs ih =>
    intro acc
    rw [List.foldl_cons, ih (16 * acc + v), List.length_cons, Finset.sum_range_succ']
    have hexp : ∀ i, (v :: vs).getD (i + 1) 0 * 16 ^ (vs.length + 1 - 1 - (i + 1)) =
        vs.getD i 0 * 16 ^ (vs.length - 1 - i) := by
      intro i
      rw [List.getD_cons_succ,
        show vs.length + 1 - 1 - (i + 1) = vs.length - 1 - i from by omega]
    rw [Finset.sum_congr rfl fun i _ => hexp i, List.getD_cons_zero,
      show vs.length + 1 - 1 - 0 = vs.length from by omega, pow_succ]
    ring

/-- C7: on every string of valid hex digits with even nonzero length at
most the 8-digit bound of the 32-bit holder, the parser returns the
big-endian value Σ digit_i · 16^(n-1-i); in particular an all-zero string
parses to 0. -/
theorem hexCharToValue_big_endian_sum (cs : List Char) (vs : List Nat)
    (hd : hexDigits? cs = some vs) (h1 : cs.length ≠ 0) (h2 : cs.length % 2 = 0)
    (h3 : cs.length ≤ 8) :
    hexCharToValue cs =
      some (∑ i ∈ Finset.range vs.length, vs.getD i 0 * 16 ^ (vs.length - 1 - i)) := by
  rw [hexCharToValue_eq_hexValBE hd h1 h2 h3]
  exact congrArg some (by simpa [hexValBE] using foldl_hex_general vs 0)

/-- C7 witness: the all-zero string "0000" parses to 0. -/
theorem hexCharToValue_big_endian_sum_witness :
    hexCharToValue ['0', '0', '0', '0'] = some 0 := by
  have h := hexCharToValue_big_endian_sum ['0', '0', '0', '0'] [0, 0, 0, 0]
    (by decide) (by decide) (by decide) (by decide)
  simpa [Finset.sum_range_succ] using h

/-- C3: for every legal code point outside the surrogate range, encoding
its hex representation (4 digits below 0x10000, 6 digits above) and
decoding the produced bytes with the standards-compliant reference
decoder yields the code point again. -/
theorem encode_round_trip (cp : Nat) (hle : cp ≤ 0x10FFFF)
    (hsur : ¬ (0xD800 ≤ cp ∧ cp ≤ 0xDFFF)) :
    ∃ bs, hexCodepointToUtf8String (hexOfCp cp) = some bs ∧
      utf8Decode bs = some cp := by
  by_cases hbmp : cp ≤ 0xFFFF
  · have hofc : hexOfCp cp = [nibbleChar (cp / 4096 % 16), nibbleChar (cp / 256 % 16),
        nibbleChar (cp / 16 % 16), nibbleChar (cp % 16)] := by
      unfold hexOfCp
      rw [if_pos hbmp]
    have h0 := hexCharToByte_nibbleChar (show cp / 4096 % 16 < 16 by omega)
    have h1 := hexCharToByte_nibbleChar (show cp / 256 % 16 < 16 by omega)
    have h2 := hexCharToByte_nibbleChar (show cp / 16 % 16 < 16 by omega)
    have h3 := hexCharToByte_nibbleChar (show cp % 16 < 16 by omega)
    have hpoly : cp / 4096 % 16 * 4096 + cp / 256 % 16 * 256 +
        cp / 16 % 16 * 16 + cp % 16 = cp := by omega
    by_cases hascii : cp ≤ 0x7F
    · refine ⟨[cp], ?_, utf8Decode_one cp (by omega)⟩
      rw [hofc]
      have henc := encode4_ascii _ _ _ _ _ _ _ _ h0 h1 h2 h3 (by omega)
      rw [hpoly] at henc
      exact henc
    · by_cases hlatin : cp ≤ 0x7FF
      · refine ⟨[0xC0 + cp / 64, 0x80 + cp % 64], ?_, ?_⟩
        · rw [hofc]
          have henc := encode4_latin _ _ _ _ _ _ _ _ h0 h1 h2 h3 (by omega) (by omega)
          rw [hpoly] at henc
          exact henc
        · rw [utf8Decode_two _ _ ⟨by omega, by omega, by omega, by omega⟩]
          exact congrArg some (by omega)
      · refine ⟨[0xE0 + cp / 4096, 0x80 + cp / 64 % 64, 0x80 + cp % 64], ?_, ?_⟩
        · rw [hofc]
          have henc := encode4_ml _ _ _ _ _ _ _ _ h0 h1 h2 h3 (by omega)
          rw [hpoly] at henc
          exact henc
        · rw [utf8Decode_three _ _ _ ⟨by omega, by omega, by omega⟩]
          exact congrArg some (by omega)
  · have hofc : hexOfCp cp = [nibbleChar (cp / 1048576 % 16), nibbleChar (cp / 65536 % 16),
        nibbleChar (cp / 4096 % 16), nibbleChar (cp / 256 % 16),
        nibbleChar (cp / 16 % 16), nibbleChar (cp % 16)] := by
      unfold hexOfCp
      rw [if_neg hbmp]
    have h0 := hexCharToByte_nibbleChar (show cp / 1048576 % 16 < 16 by omega)
    have h1 := hexCharToByte_nibbleChar (show cp / 65536 % 16 < 16 by omega)
    have h2 := hexCharToByte_nibbleChar (show cp / 4096 % 16 < 16 by omega)
    have h3 := hexCharToByte_nibbleChar (show cp / 256 % 16 < 16 by omega)
    have h4 := hexCharToByte_nibbleChar (show cp / 16 % 16 < 16 by omega)
    have h5 := hexCharToByte_nibbleChar (show cp % 16 < 16 by omega)
    have henc := encode6_ext _ _ _ _ _ _ _ _ _ _ _ _ h0 h1 h2 h3 h4 h5
      (by omega) (by omega)
    rw [← hofc] at henc
    refine ⟨_, henc, ?_⟩
    rw [utf8Decode_four _ _ _ _ ⟨by omega, by omega, by omega⟩]
    exact congrArg some (by omega)

/-- C3 witness: the round trip at the post-surrogate boundary 0xE000. -/
theorem encode_round_trip_witness :
    ∃ bs, hexCodepointToUtf8String (hexOfCp 0xE000) = some bs ∧
      utf8Decode bs = some 0xE000 :=
  encode_round_trip 0xE000 (by omega) (by omega)
